import Mathlib

/-!
Verification of the resource-accounting and execution-telemetry subsystem of
the `aci` backend.

The development shallowly embeds two source files:

* `backend/aci/server/quota_service.py` — the monthly-quota ledger:
  the conditional `SQL_INCREMENT` update, and the two-tier
  `consume_monthly_quota` algorithm (cache fast path + atomic hard path).
* `backend/aci/server/execution_logs/execution_log_appender.py` — the
  bounded in-process queue appender, the Redis list appender, and the
  shared batch flush `_flush_to_db`.

Modelling conventions:

* Calendar months are abstract `Nat` codes.  The source computes the first
  day of the current month (`month_start`) from `now` and a timezone and
  passes it to SQL as a date; since every comparison in the subsystem is
  an equality test between two such month values, the embedding takes the
  current-month code as a parameter and stores month codes in rows.
* Python `int` is `Int`; Python floor division `//` is `Int.fdiv` and
  Python `%` (sign of the divisor) is `Int.fmod`.
* A single project is modelled: the database holds `Option ProjectRow`
  (`none` = no row with the requested id).  All statements in
  `consume_monthly_quota` target one `project_id`, so rows of other
  projects are untouched frame and are omitted.
* The best-effort cache (`get`/`set` wrapped in try/except) is modelled by
  a `cacheOk` flag: when `false` every cache operation raises and the
  exception is swallowed exactly where the source swallows it.
* Exceptions `ProjectNotFound` / `MonthlyQuotaExceeded` and normal return
  become an `Outcome`.  The database statements executed during a call are
  recorded in a `trace` so that "touches the database" is a statement
  about the program, not about the metatheory.
* UUIDs and datetimes carried by log events are opaque `Nat` codes and the
  JSON payloads `request`/`response` are opaque `Option String` values:
  the appender never inspects them, it only tests them against `None`.
-/

/-- The quota columns of one `projects` row
(`monthly_quota_month` is a month code, see the header). -/
structure ProjectRow where
  monthly_quota_month : Nat
  monthly_quota_used : Int
  monthly_quota_limit : Int
  total_quota_used : Int
deriving DecidableEq

/-- State visible to one `consume_monthly_quota` call: the project's row
(`none` when the project does not exist) and the two cache keys for the
current `(project, month)` pair — the usage counter `quota:{pid}:{month}`
and the cached limit `quota:{pid}:{month}:limit`. -/
structure QState where
  db : Option ProjectRow
  cacheCounter : Option Int
  cacheLimit : Option Int
deriving DecidableEq

/-- A database statement executed by `consume_monthly_quota`:
`fetchLimit` is `SQL_FETCH_LIMIT` (a SELECT), `increment` is the
conditional `SQL_INCREMENT` UPDATE, `rollback`/`commit` are the session
transaction calls. -/
inductive DbOp
  | fetchLimit
  | increment
  | rollback
  | commit
deriving DecidableEq

/-- Observable outcome of a `consume_monthly_quota` call: normal return,
or one of the two raised exceptions. -/
inductive Outcome
  | ok
  | projectNotFound
  | monthlyQuotaExceeded
deriving DecidableEq

/-- Result of a call: outcome, final state, and the list of database
statements executed, in order. -/
structure ConsumeResult where
  outcome : Outcome
  state : QState
  trace : List DbOp
deriving DecidableEq

/-- The `CASE WHEN monthly_quota_month = :cur_month THEN monthly_quota_used
ELSE 0 END` subexpression of `SQL_INCREMENT`. -/
def rolledUsed (cur_month : Nat) (row : ProjectRow) : Int :=
  if row.monthly_quota_month = cur_month then row.monthly_quota_used else 0

/-- The single conditional UPDATE of `quota_service.py` (`SQL_INCREMENT`),
applied to the project's row.  Returns the updated row when the WHERE
predicate (candidate new usage `≤ monthly_quota_limit`) holds, `none` when
zero rows are affected. -/
def SQL_INCREMENT (cur_month : Nat) (consume : Int) (row : ProjectRow) :
    Option ProjectRow :=
  if rolledUsed cur_month row + consume ≤ row.monthly_quota_limit then
    some { monthly_quota_month := cur_month
           monthly_quota_used := rolledUsed cur_month row + consume
           monthly_quota_limit := row.monthly_quota_limit
           total_quota_used := row.total_quota_used + consume }
  else
    none

/-- `max(10, limit // 20)` — the default soft window (5% of the limit). -/
def softWindowDefault (limit : Int) : Int :=
  max 10 (Int.fdiv limit 20)

/-- `max(1, limit // 10)` — the write-through checkpoint step. -/
def writeThroughStep (limit : Int) : Int :=
  max 1 (Int.fdiv limit 10)

/-- Prefix already-executed database statements onto a result's trace. -/
def prependTrace (ops : List DbOp) (r : ConsumeResult) : ConsumeResult :=
  { r with trace := ops ++ r.trace }

/-- The hard path of `consume_monthly_quota` (lines 154-188): execute
`SQL_INCREMENT`; on zero rows run the existence read and raise
`ProjectNotFound` or roll back, clamp the cache counter to `limit`
(best-effort) and raise `MonthlyQuotaExceeded`; on success resync both
cache keys to the returned row and commit. -/
def hardPath (cacheOk : Bool) (cur_month : Nat) (count : Int) (s : QState)
    (limit : Int) : ConsumeResult :=
  match s.db with
  | none =>
      ⟨.projectNotFound, s, [.increment, .fetchLimit]⟩
  | some row =>
      match SQL_INCREMENT cur_month count row with
      | none =>
          let s' := if cacheOk then { s with cacheCounter := some limit } else s
          ⟨.monthlyQuotaExceeded, s', [.increment, .fetchLimit, .rollback]⟩
      | some nr =>
          let s' := { s with db := some nr }
          let s'' :=
            if cacheOk then
              { s' with cacheCounter := some nr.monthly_quota_used
                        cacheLimit := some nr.monthly_quota_limit }
            else s'
          ⟨.ok, s'', [.increment, .commit]⟩

/-- The speculative-increment step of the fast path (lines 141-149):
write the incremented counter back, then accept when the new value is
inside `limit + soft_window` and does not land on a write-through
checkpoint; otherwise fall through to the hard path. -/
def fastCheck (cur_month : Nat) (count : Int) (s : QState) (limit sw cur : Int) :
    ConsumeResult :=
  let cached_after := cur + count
  let s' := { s with cacheCounter := some cached_after }
  if cached_after ≤ limit + sw ∧ ¬ Int.fmod cached_after (writeThroughStep limit) = 0 then
    ⟨.ok, s', []⟩
  else
    hardPath true cur_month count s' limit

/-- `consume_monthly_quota` after the limit has been resolved (lines
121-152): compute the default soft window, then run the cache fast path —
reading the counter, seeding it from an existence-checked row when absent
(a `ProjectNotFound` raised by that read is swallowed by the surrounding
`except` and control falls to the hard path) — or skip the whole block to
the hard path when the cache is down. -/
def afterLimit (cacheOk : Bool) (cur_month : Nat) (softWindowArg : Option Int)
    (count : Int) (s : QState) (limit : Int) : ConsumeResult :=
  let sw := softWindowArg.getD (softWindowDefault limit)
  if cacheOk then
    match s.cacheCounter with
    | some cur => fastCheck cur_month count s limit sw cur
    | none =>
        match s.db with
        | none => prependTrace [.fetchLimit] (hardPath true cur_month count s limit)
        | some _ =>
            prependTrace [.fetchLimit]
              (fastCheck cur_month count { s with cacheCounter := some 0 } limit sw 0)
  else
    hardPath false cur_month count s limit

/-- `consume_monthly_quota` (lines 74-188).  `cacheOk` models whether the
best-effort cache transport works; `cur_month` is the month code of
`month_start(now, tz)`; `softWindowArg` is the optional `soft_window`
keyword argument.  A non-positive `count` is a no-op; otherwise the limit
is read from cache, or from the database (raising `ProjectNotFound` when
the row is missing, and seeding the cache). -/
def consume_monthly_quota (cacheOk : Bool) (cur_month : Nat)
    (softWindowArg : Option Int) (count : Int) (s : QState) : ConsumeResult :=
  if count ≤ 0 then ⟨.ok, s, []⟩
  else
    match (if cacheOk then s.cacheLimit else none) with
    | some l => afterLimit cacheOk cur_month softWindowArg count s l
    | none =>
        match s.db with
        | none => ⟨.projectNotFound, s, [.fetchLimit]⟩
        | some row =>
            let s1 :=
              if cacheOk then { s with cacheLimit := some row.monthly_quota_limit } else s
            prependTrace [.fetchLimit]
              (afterLimit cacheOk cur_month softWindowArg count s1 row.monthly_quota_limit)

/-- The quota invariant on the stored row. -/
abbrev quotaInv (o : Option ProjectRow) : Prop :=
  ∀ row, o = some row → row.monthly_quota_used ≤ row.monthly_quota_limit

/-- Run a sequence of `consume_monthly_quota` calls against one project,
each with its own cache availability, current month, soft-window argument
and count. -/
def runConsumes (ops : List (Bool × Nat × Option Int × Int)) (s : QState) : QState :=
  ops.foldl
    (fun st o => (consume_monthly_quota o.1 o.2.1 o.2.2.1 o.2.2.2 st).state) s

/-- `ExecutionStatus` enumeration (SUCCESS | FAILED). -/
inductive ExecutionStatus
  | success
  | failed
deriving DecidableEq

/-- The `LogEvent` dataclass: one completed function execution.  `id`,
`app_configuration_id`, `project_id` are UUID codes, `created_at` a
timestamp code; `request`/`response` are opaque optional payloads. -/
structure LogEvent where
  id : Nat
  function_name : String
  app_name : String
  api_key_name : Option String
  linked_account_owner_id : Option String
  app_configuration_id : Option Nat
  status : ExecutionStatus
  execution_time : Int
  created_at : Nat
  project_id : Nat
  request : Option String := none
  response : Option String := none
deriving DecidableEq

/-- A row of the `execution_logs` table, with the columns `_flush_to_db`
inserts. -/
structure ExecutionLogRow where
  id : Nat
  function_name : String
  app_name : String
  linked_account_owner_id : Option String
  app_configuration_id : Option Nat
  api_key_name : Option String
  status : ExecutionStatus
  execution_time : Int
  created_at : Nat
  project_id : Nat
deriving DecidableEq

/-- A row of the `execution_details` table. -/
structure ExecutionDetailRow where
  id : Nat
  request : Option String
  response : Option String
deriving DecidableEq

/-- The `execution_logs` dict built for one event in `_flush_to_db`. -/
def toLogRow (ev : LogEvent) : ExecutionLogRow :=
  { id := ev.id
    function_name := ev.function_name
    app_name := ev.app_name
    linked_account_owner_id := ev.linked_account_owner_id
    app_configuration_id := ev.app_configuration_id
    api_key_name := ev.api_key_name
    status := ev.status
    execution_time := ev.execution_time
    created_at := ev.created_at
    project_id := ev.project_id }

/-- The filter `_flush_to_db` applies for detail rows:
`ev.request is not None or ev.response is not None`. -/
def hasPayload (ev : LogEvent) : Bool :=
  ev.request.isSome || ev.response.isSome

/-- `logs_rows` of `_flush_to_db`: one row per event of the batch. -/
def logsRows (batch : List LogEvent) : List ExecutionLogRow :=
  batch.map toLogRow

/-- `details_rows` of `_flush_to_db`: one row per event carrying a payload. -/
def detailsRows (batch : List LogEvent) : List ExecutionDetailRow :=
  (batch.filter hasPayload).map (fun ev => ⟨ev.id, ev.request, ev.response⟩)

/-- The two log tables. -/
structure Database where
  execution_logs : List ExecutionLogRow
  execution_details : List ExecutionDetailRow
deriving DecidableEq

def Database.empty : Database := ⟨[], []⟩

/-- `LogAppenderBase._flush_to_db`: empty batches return immediately;
otherwise both tables are appended to in one transaction which commits, or
— when any insert raises (`flushFails`) — is rolled back, leaving the
database unchanged, and the exception is re-raised (`Except.error`). -/
def flush_to_db (flushFails : Bool) (db : Database) (batch : List LogEvent) :
    Except Unit Database :=
  if batch.isEmpty then .ok db
  else if flushFails then .error ()
  else
    .ok { execution_logs := db.execution_logs ++ logsRows batch
          execution_details := db.execution_details ++ detailsRows batch }

namespace AsyncQueueLogAppender

/-- `AsyncQueueLogAppender.enqueue`: when the appender was never started
(`q = none`) the event is dropped; otherwise `put_nowait` appends the event
unless the queue is full (asyncio semantics: full means `0 < maxsize` and
`maxsize ≤ qsize`), in which case `QueueFull` is caught, the event is
discarded and `None` is returned.  (The event's `id` is the caller-supplied
`execution_id` or a fresh UUID; the embedding takes the already-built
event.) -/
def enqueue (max_queue : Nat) (q : Option (List LogEvent)) (evt : LogEvent) :
    Option Nat × Option (List LogEvent) :=
  match q with
  | none => (none, none)
  | some buf =>
      if 0 < max_queue ∧ max_queue ≤ buf.length then (none, some buf)
      else (some evt.id, some (buf ++ [evt]))

/-- A burst of `enqueue` calls (no consumer tick in between), returning the
per-call results and the final buffer. -/
def enqueueMany (max_queue : Nat) (q : Option (List LogEvent)) :
    List LogEvent → List (Option Nat) × Option (List LogEvent)
  | [] => ([], q)
  | e :: es =>
      let r := enqueue max_queue q e
      let rest := enqueueMany max_queue r.2 es
      (r.1 :: rest.1, rest.2)

/-- One tick of the consumer loop `_run`: drain up to `max_batch` events
with `get_nowait` (never blocking), flush them with `_flush_to_db`; an
exception from the flush is caught and swallowed by the loop, and the
`finally` block clears the batch either way, so the drained events are
gone from the queue and are never re-flushed. -/
def tick (flushFails : Bool) (max_batch : Nat) (q : List LogEvent) (db : Database) :
    List LogEvent × Database :=
  let batch := q.take max_batch
  let q' := q.drop max_batch
  match flush_to_db flushFails db batch with
  | .ok db' => (q', db')
  | .error _ => (q', db)

/-- A run of consumer-loop ticks; `fails` gives each tick's flush fate. -/
def runTicks (max_batch : Nat) :
    List Bool → List LogEvent × Database → List LogEvent × Database
  | [], st => st
  | f :: fs, (q, db) => runTicks max_batch fs (tick f max_batch q db)

end AsyncQueueLogAppender

namespace AsyncRedisLogAppender

/-- `AsyncRedisLogAppender.enqueue`, successful path: LPUSH the serialized
event onto the head of the Redis list; if the length returned by the push
exceeds `max_queue`, RPOP exactly one item off the tail; return the
event's id.  (A transport error anywhere in the block is caught and turns
the call into a drop; the claim under verification quantifies over
successful enqueues, so the error path is not modelled.) -/
def enqueue (max_queue : Nat) (l : List LogEvent) (evt : LogEvent) :
    Option Nat × List LogEvent :=
  let pushed := evt :: l
  let trimmed := if max_queue < pushed.length then pushed.dropLast else pushed
  (some evt.id, trimmed)

end AsyncRedisLogAppender

section Helpers

@[simp]
theorem prependTrace_outcome (ops : List DbOp) (r : ConsumeResult) :
    (prependTrace ops r).outcome = r.outcome := rfl

@[simp]
theorem prependTrace_state (ops : List DbOp) (r : ConsumeResult) :
    (prependTrace ops r).state = r.state := rfl

@[simp]
theorem mem_prependTrace_trace (x : DbOp) (ops : List DbOp) (r : ConsumeResult) :
    x ∈ (prependTrace ops r).trace ↔ x ∈ ops ∨ x ∈ r.trace :=
  List.mem_append

theorem SQL_INCREMENT_le {m : Nat} {c : Int} {row nr : ProjectRow}
    (h : SQL_INCREMENT m c row = some nr) :
    nr.monthly_quota_used ≤ nr.monthly_quota_limit := by
  unfold SQL_INCREMENT at h
  split at h
  · cases h
    simpa using ‹_›
  · cases h

theorem hardPath_eq_none {s : QState} (ok : Bool) (m : Nat) (c : Int) (l : Int)
    (h : s.db = none) :
    hardPath ok m c s l = ⟨.projectNotFound, s, [.increment, .fetchLimit]⟩ := by
  unfold hardPath
  rw [h]

theorem hardPath_eq_exceeded {s : QState} {row : ProjectRow} (ok : Bool) (m : Nat)
    (c : Int) (l : Int) (h : s.db = some row)
    (hinc : SQL_INCREMENT m c row = none) :
    hardPath ok m c s l =
      ⟨.monthlyQuotaExceeded, if ok then { s with cacheCounter := some l } else s,
       [.increment, .fetchLimit, .rollback]⟩ := by
  unfold hardPath
  simp only [h, hinc]

theorem hardPath_eq_success {s : QState} {row nr : ProjectRow} (ok : Bool) (m : Nat)
    (c : Int) (l : Int) (h : s.db = some row)
    (hinc : SQL_INCREMENT m c row = some nr) :
    hardPath ok m c s l =
      ⟨.ok,
       if ok then
         { s with db := some nr, cacheCounter := some nr.monthly_quota_used,
                  cacheLimit := some nr.monthly_quota_limit }
       else { s with db := some nr },
       [.increment, .commit]⟩ := by
  unfold hardPath
  simp only [h, hinc]

theorem hardPath_increment_mem (ok : Bool) (m : Nat) (c : Int) (s : QState) (l : Int) :
    DbOp.increment ∈ (hardPath ok m c s l).trace := by
  cases h : s.db with
  | none => simp [hardPath, h]
  | some row =>
      cases hinc : SQL_INCREMENT m c row <;> simp [hardPath, h, hinc]

theorem fastCheck_eq_accept {c l sw cur : Int} (m : Nat) (s : QState)
    (h : cur + c ≤ l + sw ∧ ¬ Int.fmod (cur + c) (writeThroughStep l) = 0) :
    fastCheck m c s l sw cur = ⟨.ok, { s with cacheCounter := some (cur + c) }, []⟩ := by
  unfold fastCheck
  rw [if_pos h]

theorem fastCheck_eq_reject {c l sw cur : Int} (m : Nat) (s : QState)
    (h : ¬ (cur + c ≤ l + sw ∧ ¬ Int.fmod (cur + c) (writeThroughStep l) = 0)) :
    fastCheck m c s l sw cur =
      hardPath true m c { s with cacheCounter := some (cur + c) } l := by
  unfold fastCheck
  rw [if_neg h]

theorem afterLimit_eq_cacheFail (m : Nat) (sw : Option Int) (c : Int) (s : QState)
    (l : Int) :
    afterLimit false m sw c s l = hardPath false m c s l := rfl

theorem afterLimit_eq_counter {s : QState} {cur : Int} (m : Nat) (sw : Option Int)
    (c : Int) (l : Int) (h : s.cacheCounter = some cur) :
    afterLimit true m sw c s l =
      fastCheck m c s l (sw.getD (softWindowDefault l)) cur := by
  unfold afterLimit
  rw [if_pos rfl, h]

theorem afterLimit_eq_seed {s : QState} {row : ProjectRow} (m : Nat) (sw : Option Int)
    (c : Int) (l : Int) (hc : s.cacheCounter = none) (hdb : s.db = some row) :
    afterLimit true m sw c s l =
      prependTrace [.fetchLimit]
        (fastCheck m c { s with cacheCounter := some 0 } l
          (sw.getD (softWindowDefault l)) 0) := by
  unfold afterLimit
  rw [if_pos rfl, hc, hdb]

theorem afterLimit_eq_seedMissing {s : QState} (m : Nat) (sw : Option Int) (c : Int)
    (l : Int) (hc : s.cacheCounter = none) (hdb : s.db = none) :
    afterLimit true m sw c s l =
      prependTrace [.fetchLimit] (hardPath true m c s l) := by
  unfold afterLimit
  rw [if_pos rfl, hc, hdb]

theorem consume_eq_nonpos {c : Int} (ok : Bool) (m : Nat) (sw : Option Int)
    (s : QState) (h : c ≤ 0) :
    consume_monthly_quota ok m sw c s = ⟨.ok, s, []⟩ := by
  unfold consume_monthly_quota
  rw [if_pos h]

theorem consume_eq_cachedLimit {c : Int} {s : QState} {l : Int} (ok : Bool) (m : Nat)
    (sw : Option Int) (h : ¬ c ≤ 0) (hl : (if ok then s.cacheLimit else none) = some l) :
    consume_monthly_quota ok m sw c s = afterLimit ok m sw c s l := by
  unfold consume_monthly_quota
  rw [if_neg h, hl]

theorem consume_eq_missFound {c : Int} {s : QState} {row : ProjectRow} (ok : Bool)
    (m : Nat) (sw : Option Int) (h : ¬ c ≤ 0)
    (hl : (if ok then s.cacheLimit else none) = none) (hdb : s.db = some row) :
    consume_monthly_quota ok m sw c s =
      prependTrace [.fetchLimit]
        (afterLimit ok m sw c
          (if ok then { s with cacheLimit := some row.monthly_quota_limit } else s)
          row.monthly_quota_limit) := by
  unfold consume_monthly_quota
  rw [if_neg h, hl, hdb]

theorem consume_eq_missNone {c : Int} {s : QState} (ok : Bool) (m : Nat)
    (sw : Option Int) (h : ¬ c ≤ 0)
    (hl : (if ok then s.cacheLimit else none) = none) (hdb : s.db = none) :
    consume_monthly_quota ok m sw c s = ⟨.projectNotFound, s, [.fetchLimit]⟩ := by
  unfold consume_monthly_quota
  rw [if_neg h, hl, hdb]

end Helpers

section QuotaShape

/-- After a call fragment running from state `s`, the stored row is either
untouched or the output of a successful `SQL_INCREMENT`, hence below cap. -/
def dbShape (s : QState) (r : ConsumeResult) : Prop :=
  r.state.db = s.db ∨
    ∃ nr, r.state.db = some nr ∧ nr.monthly_quota_used ≤ nr.monthly_quota_limit

theorem hardPath_dbShape (ok : Bool) (m : Nat) (c : Int) (s : QState) (l : Int) :
    dbShape s (hardPath ok m c s l) := by
  cases h : s.db with
  | none =>
      left
      rw [hardPath_eq_none ok m c l h]
  | some row =>
      cases hinc : SQL_INCREMENT m c row with
      | none =>
          left
          rw [hardPath_eq_exceeded ok m c l h hinc]
          cases ok <;> simp [h]
      | some nr =>
          right
          refine ⟨nr, ?_, SQL_INCREMENT_le hinc⟩
          rw [hardPath_eq_success ok m c l h hinc]
          cases ok <;> rfl

theorem fastCheck_dbShape (m : Nat) (c : Int) (s : QState) (l sw cur : Int) :
    dbShape s (fastCheck m c s l sw cur) := by
  by_cases hacc : cur + c ≤ l + sw ∧ ¬ Int.fmod (cur + c) (writeThroughStep l) = 0
  · left
    rw [fastCheck_eq_accept m s hacc]
  · rw [fastCheck_eq_reject m s hacc]
    rcases hardPath_dbShape true m c { s with cacheCounter := some (cur + c) } l with h | h
    · left
      exact h
    · right
      exact h

theorem afterLimit_dbShape (ok : Bool) (m : Nat) (sw : Option Int) (c : Int)
    (s : QState) (l : Int) : dbShape s (afterLimit ok m sw c s l) := by
  cases ok with
  | false =>
      rw [afterLimit_eq_cacheFail]
      exact hardPath_dbShape false m c s l
  | true =>
      cases hcc : s.cacheCounter with
      | some cur =>
          rw [afterLimit_eq_counter m sw c l hcc]
          exact fastCheck_dbShape m c s l _ cur
      | none =>
          cases hdb : s.db with
          | none =>
              rw [afterLimit_eq_seedMissing m sw c l hcc hdb]
              rcases hardPath_dbShape true m c s l with h | h
              · left
                simpa using h
              · right
                simpa using h
          | some row =>
              rw [afterLimit_eq_seed m sw c l hcc hdb]
              rcases fastCheck_dbShape m c { s with cacheCounter := some 0 } l
                  (sw.getD (softWindowDefault l)) 0 with h | h
              · left
                simpa using h
              · right
                simpa using h

theorem consume_dbShape (ok : Bool) (m : Nat) (sw : Option Int) (c : Int)
    (s : QState) : dbShape s (consume_monthly_quota ok m sw c s) := by
  by_cases hc0 : c ≤ 0
  · left
    rw [consume_eq_nonpos ok m sw s hc0]
  · cases hl : (if ok then s.cacheLimit else none) with
    | some l =>
        rw [consume_eq_cachedLimit ok m sw hc0 hl]
        exact afterLimit_dbShape ok m sw c s l
    | none =>
        cases hdb : s.db with
        | none =>
            left
            rw [consume_eq_missNone ok m sw hc0 hl hdb]
        | some row =>
            rw [consume_eq_missFound ok m sw hc0 hl hdb]
            have hs1 :
                dbShape (if ok then { s with cacheLimit := some row.monthly_quota_limit } else s)
                  (afterLimit ok m sw c
                    (if ok then { s with cacheLimit := some row.monthly_quota_limit } else s)
                    row.monthly_quota_limit) :=
              afterLimit_dbShape ok m sw c _ row.monthly_quota_limit
            rcases hs1 with h | h



            · left
              rw [prependTrace_state, h]
              cases ok <;> rfl
            · right
              simpa using h

theorem consume_preserves_inv (ok : Bool) (m : Nat) (sw : Option Int) (c : Int)
    (s : QState) (h : quotaInv s.db) :
    quotaInv (consume_monthly_quota ok m sw c s).state.db := by
  rcases consume_dbShape ok m sw c s with hdb | ⟨nr, hdb, hle⟩
  · rw [hdb]
    exact h
  · rw [hdb]
    intro row hrow
    cases hrow
    exact hle

end QuotaShape

/-- C1 (hard cap invariant): the conditional `SQL_INCREMENT` only fires when
the candidate new usage is at most the stored limit, so along any sequence
of `consume_monthly_quota` calls against the project — with arbitrary cache
availability, month, soft-window argument and count at each call — the
stored row keeps satisfying `monthly_quota_used ≤ monthly_quota_limit`. -/
theorem monthly_quota_hard_cap_preserved (ops : List (Bool × Nat × Option Int × Int))
    (s : QState) (h : quotaInv s.db) : quotaInv (runConsumes ops s).db := by
  induction ops generalizing s with
  | nil => exact h
  | cons o rest ih =>
      have hstep := consume_preserves_inv o.1 o.2.1 o.2.2.1 o.2.2.2 s h
      simpa only [runConsumes, List.foldl_cons] using
        ih (consume_monthly_quota o.1 o.2.1 o.2.2.1 o.2.2.2 s).state hstep

/-- Witness for C1 at a concrete project and call sequence: a charge that
fits, a charge that busts the cap, a cache-down charge. -/
theorem monthly_quota_hard_cap_preserved_witness :
    quotaInv (QState.mk (some ⟨202504, 95, 100, 1000⟩) (some 95) (some 100)).db ∧
    quotaInv (runConsumes
      [(true, 202504, none, 4), (true, 202504, none, 50), (false, 202504, none, 1)]
      (QState.mk (some ⟨202504, 95, 100, 1000⟩) (some 95) (some 100))).db := by
  constructor
  · intro row hrow
    cases hrow
    decide
  · exact monthly_quota_hard_cap_preserved _ _ (by intro row hrow; cases hrow; decide)

section CommitInversion

theorem hardPath_commit_inv {ok : Bool} {m : Nat} {c : Int} {s : QState} {l : Int}
    (h : DbOp.commit ∈ (hardPath ok m c s l).trace) :
    ∃ row nr, s.db = some row ∧ SQL_INCREMENT m c row = some nr ∧
      (hardPath ok m c s l).state.db = some nr := by
  cases hdb : s.db with
  | none =>
      rw [hardPath_eq_none ok m c l hdb] at h
      simp at h
  | some row =>
      cases hinc : SQL_INCREMENT m c row with
      | none =>
          rw [hardPath_eq_exceeded ok m c l hdb hinc] at h
          simp at h
      | some nr =>
          refine ⟨row, nr, rfl, hinc, ?_⟩
          rw [hardPath_eq_success ok m c l hdb hinc]
          cases ok <;> rfl

theorem fastCheck_commit_inv {m : Nat} {c : Int} {s : QState} {l sw cur : Int}
    (h : DbOp.commit ∈ (fastCheck m c s l sw cur).trace) :
    ∃ row nr, s.db = some row ∧ SQL_INCREMENT m c row = some nr ∧
      (fastCheck m c s l sw cur).state.db = some nr := by
  by_cases hacc : cur + c ≤ l + sw ∧ ¬ Int.fmod (cur + c) (writeThroughStep l) = 0
  · rw [fastCheck_eq_accept m s hacc] at h
    simp at h
  · rw [fastCheck_eq_reject m s hacc] at h ⊢
    exact hardPath_commit_inv h

theorem afterLimit_commit_inv {ok : Bool} {m : Nat} {sw : Option Int} {c : Int}
    {s : QState} {l : Int}
    (h : DbOp.commit ∈ (afterLimit ok m sw c s l).trace) :
    ∃ row nr, s.db = some row ∧ SQL_INCREMENT m c row = some nr ∧
      (afterLimit ok m sw c s l).state.db = some nr := by
  cases ok with
  | false =>
      rw [afterLimit_eq_cacheFail] at h ⊢
      exact hardPath_commit_inv h
  | true =>
      cases hcc : s.cacheCounter with
      | some cur =>
          rw [afterLimit_eq_counter m sw c l hcc] at h ⊢
          exact fastCheck_commit_inv h
      | none =>
          cases hdb : s.db with
          | none =>
              rw [afterLimit_eq_seedMissing m sw c l hcc hdb] at h ⊢
              rw [mem_prependTrace_trace] at h
              rcases h with h | h
              · simp at h
              · obtain ⟨row, nr, h1, h2, h3⟩ := hardPath_commit_inv h
                rw [hdb] at h1
                cases h1
          | some row0 =>
              rw [afterLimit_eq_seed m sw c l hcc hdb] at h ⊢
              rw [mem_prependTrace_trace] at h
              rcases h with h | h
              · simp at h
              · obtain ⟨row, nr, h1, h2, h3⟩ := fastCheck_commit_inv h
                have h1' : s.db = some row := h1
                rw [hdb] at h1'
                injection h1' with e
                subst e
                exact ⟨row0, nr, rfl, h2, by simpa using h3⟩

theorem consume_commit_inv {ok : Bool} {m : Nat} {sw : Option Int} {c : Int}
    {s : QState}
    (h : DbOp.commit ∈ (consume_monthly_quota ok m sw c s).trace) :
    ∃ row nr, s.db = some row ∧ SQL_INCREMENT m c row = some nr ∧
      (consume_monthly_quota ok m sw c s).state.db = some nr := by
  by_cases hc0 : c ≤ 0
  · rw [consume_eq_nonpos ok m sw s hc0] at h
    simp at h
  · cases hl : (if ok then s.cacheLimit else none) with
    | some l =>
        rw [consume_eq_cachedLimit ok m sw hc0 hl] at h ⊢
        exact afterLimit_commit_inv h
    | none =>
        cases hdb : s.db with
        | none =>
            rw [consume_eq_missNone ok m sw hc0 hl hdb] at h
            simp at h
        | some row0 =>
            rw [consume_eq_missFound ok m sw hc0 hl hdb] at h ⊢
            rw [mem_prependTrace_trace] at h
            rcases h with h | h
            · simp at h
            · obtain ⟨row, nr, h1, h2, h3⟩ := afterLimit_commit_inv h
              have h1' : s.db = some row := by cases ok <;> exact h1
              rw [hdb] at h1'
              injection h1' with e
              subst e
              exact ⟨row0, nr, rfl, h2, by simpa using h3⟩

end CommitInversion

/-- C2 (rollover correctness): a committed charge of `count > 0` against a
row whose stored `monthly_quota_month` differs from the current month sets
`monthly_quota_used` to exactly `count` (not `old_used + count`), sets
`monthly_quota_month` to the current month (the code of the month's first
day), and adds `count` to `total_quota_used` whatever its prior value —
reset and charge happen in the one `SQL_INCREMENT` statement. -/
theorem rollover_resets_usage_to_count (ok : Bool) (m : Nat) (sw : Option Int)
    (c : Int) (s : QState) (row : ProjectRow)
    (_hpos : 0 < c) (hdb : s.db = some row) (hm : row.monthly_quota_month ≠ m)
    (hcommit : DbOp.commit ∈ (consume_monthly_quota ok m sw c s).trace) :
    (consume_monthly_quota ok m sw c s).state.db =
      some ⟨m, c, row.monthly_quota_limit, row.total_quota_used + c⟩ := by
  obtain ⟨row', nr, hdb', hinc, hstate⟩ := consume_commit_inv hcommit
  rw [hdb] at hdb'
  injection hdb' with e
  subst e
  have h0 : rolledUsed m row = 0 := by
    unfold rolledUsed
    exact if_neg hm
  unfold SQL_INCREMENT at hinc
  rw [h0] at hinc
  split at hinc
  · rw [hstate]
    injection hinc with e2
    rw [← e2]
    simp
  · cases hinc

/-- Witness for C2: project last charged in 202503, charged 5 in 202504 with
the cache down; usage becomes 5 and the all-time total grows by 5. -/
theorem rollover_resets_usage_to_count_witness :
    (0:Int) < 5 ∧
    (consume_monthly_quota false 202504 none 5
      ⟨some ⟨202503, 95, 100, 500⟩, none, none⟩).state.db =
      some ⟨202504, 5, 100, 505⟩ := by
  refine ⟨by decide, ?_⟩
  have h := rollover_resets_usage_to_count false 202504 none 5
    ⟨some ⟨202503, 95, 100, 500⟩, none, none⟩ ⟨202503, 95, 100, 500⟩
    (by decide) rfl (by decide) (by decide)
  simpa using h

section FastPath

theorem consume_eq_cachedLimit' {c : Int} {s : QState} {l : Int} (m : Nat)
    (sw : Option Int) (h : ¬ c ≤ 0) (hl : s.cacheLimit = some l) :
    consume_monthly_quota true m sw c s = afterLimit true m sw c s l :=
  consume_eq_cachedLimit true m sw h (by simpa using hl)

theorem consume_eq_missFound' {c : Int} {s : QState} {row : ProjectRow} (m : Nat)
    (sw : Option Int) (h : ¬ c ≤ 0) (hl : s.cacheLimit = none)
    (hdb : s.db = some row) :
    consume_monthly_quota true m sw c s =
      prependTrace [.fetchLimit]
        (afterLimit true m sw c { s with cacheLimit := some row.monthly_quota_limit }
          row.monthly_quota_limit) := by
  rw [consume_eq_missFound true m sw h (by simpa using hl) hdb]
  rfl

/-- At `afterLimit`, with the default soft window, the call ends on the fast
path exactly when the speculative counter value passes the window test and
misses the write-through checkpoint.  `cur` is the counter the increment
starts from: the cached value, or 0 when the key is absent and the seeding
read finds the project row. -/
theorem afterLimit_fastpath_iff (m : Nat) (c : Int) (s : QState) (l cur : Int)
    (hcur : s.cacheCounter = some cur ∨
      (s.cacheCounter = none ∧ cur = 0 ∧ s.db.isSome)) :
    ((afterLimit true m none c s l).outcome = .ok ∧
      DbOp.increment ∉ (afterLimit true m none c s l).trace) ↔
    (cur + c ≤ l + softWindowDefault l ∧
      ¬ Int.fmod (cur + c) (writeThroughStep l) = 0) := by
  rcases hcur with hcc | ⟨hcc, hcur0, hdb⟩
  · rw [afterLimit_eq_counter m none c l hcc]
    simp only [Option.getD_none]
    by_cases hacc : cur + c ≤ l + softWindowDefault l ∧
        ¬ Int.fmod (cur + c) (writeThroughStep l) = 0
    · rw [fastCheck_eq_accept m s hacc]
      exact iff_of_true ⟨rfl, by simp⟩ hacc
    · rw [fastCheck_eq_reject m s hacc]
      exact iff_of_false (fun hco => hco.2 (hardPath_increment_mem _ _ _ _ _)) hacc
  · obtain ⟨row, hdb'⟩ := Option.isSome_iff_exists.mp hdb
    subst hcur0
    rw [afterLimit_eq_seed m none c l hcc hdb']
    simp only [Option.getD_none]
    by_cases hacc : 0 + c ≤ l + softWindowDefault l ∧
        ¬ Int.fmod (0 + c) (writeThroughStep l) = 0
    · rw [fastCheck_eq_accept m _ hacc]
      refine iff_of_true ⟨rfl, ?_⟩ hacc
      simp
    · rw [fastCheck_eq_reject m _ hacc]
      refine iff_of_false (fun hco => ?_) hacc
      exact hco.2 (by simp [hardPath_increment_mem])

end FastPath

/-- C3 (fast-path acceptance): a `consume_monthly_quota` call with
`count > 0`, working cache transport and the default soft window returns
success without running `SQL_INCREMENT` exactly when the speculatively
incremented counter `cur + count` is at most `limit + max(10, limit // 20)`
and does not land on the write-through checkpoint `max(1, limit // 10)`.
`l` is the resolved limit (cached, or read from the row), `cur` the counter
the increment starts from (cached, or 0 after a seeding read that finds the
row). -/
theorem fast_path_acceptance_iff (m : Nat) (c : Int) (s : QState) (l cur : Int)
    (hpos : 0 < c)
    (hl : s.cacheLimit = some l ∨
      (s.cacheLimit = none ∧ ∃ row, s.db = some row ∧ row.monthly_quota_limit = l))
    (hcur : s.cacheCounter = some cur ∨
      (s.cacheCounter = none ∧ cur = 0 ∧ s.db.isSome)) :
    ((consume_monthly_quota true m none c s).outcome = .ok ∧
      DbOp.increment ∉ (consume_monthly_quota true m none c s).trace) ↔
    (cur + c ≤ l + softWindowDefault l ∧
      ¬ Int.fmod (cur + c) (writeThroughStep l) = 0) := by
  have hc0 : ¬ c ≤ 0 := not_le.mpr hpos
  rcases hl with hl | ⟨hl, row, hdb, hliml⟩
  · rw [consume_eq_cachedLimit' m none hc0 hl]
    exact afterLimit_fastpath_iff m c s l cur hcur
  · subst hliml
    rw [consume_eq_missFound' m none hc0 hl hdb]
    have hiff := afterLimit_fastpath_iff m c
      { s with cacheLimit := some row.monthly_quota_limit }
      row.monthly_quota_limit cur hcur
    simpa using hiff

/-- Witness for C3: cached limit 100 and counter 95; a charge of 4 lands at
99 (accepted on the fast path), exercising the equivalence right-to-left. -/
theorem fast_path_acceptance_iff_witness :
    (0:Int) < 4 ∧
    (consume_monthly_quota true 202504 none 4
      ⟨some ⟨202504, 95, 100, 1000⟩, some 95, some 100⟩).outcome = .ok ∧
    DbOp.increment ∉
      (consume_monthly_quota true 202504 none 4
        ⟨some ⟨202504, 95, 100, 1000⟩, some 95, some 100⟩).trace := by
  refine ⟨by decide, ?_⟩
  exact (fast_path_acceptance_iff 202504 4
    ⟨some ⟨202504, 95, 100, 1000⟩, some 95, some 100⟩ 100 95 (by decide)
    (Or.inl rfl) (Or.inl rfl)).mpr (by decide)

section ZeroRows

/-- Behaviour of the hard path when the conditional UPDATE affects zero
rows: the existence read discriminates a missing project (raise
`ProjectNotFound`, no row mutated) from a busted cap (roll back, clamp the
cache counter to the resolved limit, raise `MonthlyQuotaExceeded`). -/
theorem hardPath_zero_rows (ok : Bool) (m : Nat) (c : Int) (s : QState) (l : Int)
    (hz : ∀ row, s.db = some row → SQL_INCREMENT m c row = none) :
    (s.db = none →
       (hardPath ok m c s l).outcome = .projectNotFound ∧
       (hardPath ok m c s l).state.db = none) ∧
    (∀ row, s.db = some row →
       (hardPath ok m c s l).outcome = .monthlyQuotaExceeded ∧
       DbOp.rollback ∈ (hardPath ok m c s l).trace ∧
       (hardPath ok m c s l).state.cacheCounter =
         (if ok then some l else s.cacheCounter) ∧
       (hardPath ok m c s l).state.db = some row) := by
  constructor
  · intro hdb
    rw [hardPath_eq_none ok m c l hdb]
    exact ⟨rfl, hdb⟩
  · intro row hrow
    have hz' := hz row hrow
    rw [hardPath_eq_exceeded ok m c l hrow hz']
    refine ⟨rfl, by simp, ?_, ?_⟩
    · cases ok <;> rfl
    · cases ok <;> exact hrow

/-- The analogue of `hardPath_zero_rows` one level up, for every execution
of the cache block that ends in the hard path. -/
theorem afterLimit_zero_rows (m : Nat) (sw : Option Int) (c : Int) (s : QState)
    (l : Int)
    (hz : ∀ row, s.db = some row → SQL_INCREMENT m c row = none)
    (hinc : DbOp.increment ∈ (afterLimit true m sw c s l).trace) :
    (s.db = none →
       (afterLimit true m sw c s l).outcome = .projectNotFound ∧
       (afterLimit true m sw c s l).state.db = none) ∧
    (∀ row, s.db = some row →
       (afterLimit true m sw c s l).outcome = .monthlyQuotaExceeded ∧
       DbOp.rollback ∈ (afterLimit true m sw c s l).trace ∧
       (afterLimit true m sw c s l).state.cacheCounter = some l ∧
       (afterLimit true m sw c s l).state.db = some row) := by
  cases hcc : s.cacheCounter with
  | some cur =>
      rw [afterLimit_eq_counter m sw c l hcc] at hinc ⊢
      by_cases hacc : cur + c ≤ l + sw.getD (softWindowDefault l) ∧
          ¬ Int.fmod (cur + c) (writeThroughStep l) = 0
      · rw [fastCheck_eq_accept m s hacc] at hinc
        simp at hinc
      · rw [fastCheck_eq_reject m s hacc] at hinc ⊢
        obtain ⟨h1, h2⟩ := hardPath_zero_rows true m c
          { s with cacheCounter := some (cur + c) } l (fun row hrow => hz row hrow)
        constructor
        · intro hdb
          exact h1 hdb
        · intro row hrow
          obtain ⟨o1, o2, o3, o4⟩ := h2 row hrow
          exact ⟨o1, o2, by simpa using o3, o4⟩
  | none =>
      cases hdb0 : s.db with
      | none =>
          rw [afterLimit_eq_seedMissing m sw c l hcc hdb0] at hinc ⊢
          obtain ⟨h1, h2⟩ := hardPath_zero_rows true m c s l hz
          constructor
          · intro _
            obtain ⟨o1, o2⟩ := h1 hdb0
            exact ⟨by simpa using o1, by simpa using o2⟩
          · intro row hrow
            exact Option.noConfusion hrow
      | some row0 =>
          rw [afterLimit_eq_seed m sw c l hcc hdb0] at hinc ⊢
          rw [mem_prependTrace_trace] at hinc
          rcases hinc with hinc | hinc
          · simp at hinc
          · by_cases hacc : 0 + c ≤ l + sw.getD (softWindowDefault l) ∧
                ¬ Int.fmod (0 + c) (writeThroughStep l) = 0
            · rw [fastCheck_eq_accept m { s with cacheCounter := some 0 } hacc] at hinc
              simp at hinc
            · rw [fastCheck_eq_reject m { s with cacheCounter := some 0 } hacc] at hinc ⊢
              obtain ⟨h1, h2⟩ := hardPath_zero_rows true m c
                { s with cacheCounter := some (0 + c) } l (fun row hrow => hz row hrow)
              constructor
              · intro hdb
                exact Option.noConfusion hdb
              · intro row hrow
                have hsdb : s.db = some row := by
                  rw [hdb0]
                  exact hrow
                obtain ⟨o1, o2, o3, o4⟩ := h2 row hsdb
                refine ⟨by simpa using o1, ?_, by simpa using o3, by simpa using o4⟩
                rw [mem_prependTrace_trace]
                right
                exact o2

end ZeroRows

/-- C4 (hard-path failure discrimination): with `count > 0`, working cache
transport and a state where `SQL_INCREMENT` would affect zero rows, every
call that reaches the hard path raises `ProjectNotFound` when the existence
read finds no project row (no row is mutated), and otherwise rolls back,
clamps the cache counter to the resolved limit and raises
`MonthlyQuotaExceeded`; these are the only outcomes of the zero-row
signal. -/
theorem hard_path_failure_discrimination (m : Nat) (sw : Option Int) (c : Int)
    (s : QState) (hpos : 0 < c)
    (hz : ∀ row, s.db = some row → SQL_INCREMENT m c row = none)
    (hinc : DbOp.increment ∈ (consume_monthly_quota true m sw c s).trace) :
    (s.db = none →
       (consume_monthly_quota true m sw c s).outcome = .projectNotFound ∧
       (consume_monthly_quota true m sw c s).state.db = none) ∧
    (∀ row, s.db = some row →
       (consume_monthly_quota true m sw c s).outcome = .monthlyQuotaExceeded ∧
       DbOp.rollback ∈ (consume_monthly_quota true m sw c s).trace ∧
       (consume_monthly_quota true m sw c s).state.cacheCounter =
         some (s.cacheLimit.getD row.monthly_quota_limit) ∧
       (consume_monthly_quota true m sw c s).state.db = some row) := by
  have hc0 : ¬ c ≤ 0 := not_le.mpr hpos
  cases hl : s.cacheLimit with
  | some l =>
      rw [consume_eq_cachedLimit' m sw hc0 hl] at hinc ⊢
      obtain ⟨h1, h2⟩ := afterLimit_zero_rows m sw c s l hz hinc
      refine ⟨h1, fun row hrow => ?_⟩
      obtain ⟨o1, o2, o3, o4⟩ := h2 row hrow
      exact ⟨o1, o2, by simpa using o3, o4⟩
  | none =>
      cases hdb0 : s.db with
      | none =>
          rw [consume_eq_missNone true m sw hc0 (by simpa using hl) hdb0] at hinc
          simp at hinc
      | some row0 =>
          rw [consume_eq_missFound' m sw hc0 hl hdb0] at hinc ⊢
          rw [mem_prependTrace_trace] at hinc
          rcases hinc with hinc | hinc
          · simp at hinc
          · obtain ⟨h1, h2⟩ := afterLimit_zero_rows m sw c
              { s with cacheLimit := some row0.monthly_quota_limit }
              row0.monthly_quota_limit (fun row hrow => hz row hrow) hinc
            constructor
            · intro hdb
              exact Option.noConfusion hdb
            · intro row hrow
              have hsdb : s.db = some row := by
                rw [hdb0]
                exact hrow
              obtain ⟨o1, o2, o3, o4⟩ := h2 row hsdb
              have hrow' : row0 = row := by
                injection hrow
              subst hrow'
              refine ⟨by simpa using o1, ?_, by simpa using o3, by simpa using o4⟩
              rw [mem_prependTrace_trace]
              right
              exact o2

/-- Witness for C4: cached counter far past the window forces the hard
path; the row sits at its cap so `SQL_INCREMENT` affects zero rows and the
call raises `MonthlyQuotaExceeded`, rolls back and clamps the counter. -/
theorem hard_path_failure_discrimination_witness :
    (0:Int) < 1 ∧
    (consume_monthly_quota true 202504 none 1
      ⟨some ⟨202504, 100, 100, 100⟩, some 200, some 100⟩).outcome =
        .monthlyQuotaExceeded ∧
    DbOp.rollback ∈ (consume_monthly_quota true 202504 none 1
      ⟨some ⟨202504, 100, 100, 100⟩, some 200, some 100⟩).trace ∧
    (consume_monthly_quota true 202504 none 1
      ⟨some ⟨202504, 100, 100, 100⟩, some 200, some 100⟩).state.cacheCounter =
        some 100 := by
  refine ⟨by decide, ?_⟩
  have h := (hard_path_failure_discrimination 202504 none 1
    ⟨some ⟨202504, 100, 100, 100⟩, some 200, some 100⟩ (by decide)
    (fun row hrow => by cases hrow; decide) (by decide)).2
    ⟨202504, 100, 100, 100⟩ rfl
  exact ⟨h.1, h.2.1, by simpa using h.2.2.1⟩

section FastPathFrame

/-- Any execution of the cache block that ends on the fast path executed
only `SQL_FETCH_LIMIT` reads (none at all when the counter was cached) and
left the stored row untouched. -/
theorem afterLimit_fastpath_shape (m : Nat) (sw : Option Int) (c : Int)
    (s : QState) (l : Int)
    (h : (afterLimit true m sw c s l).outcome = .ok ∧
         DbOp.increment ∉ (afterLimit true m sw c s l).trace) :
    (∀ op ∈ (afterLimit true m sw c s l).trace, op = DbOp.fetchLimit) ∧
    (afterLimit true m sw c s l).state.db = s.db ∧
    (s.cacheCounter.isSome → (afterLimit true m sw c s l).trace = []) := by
  cases hcc : s.cacheCounter with
  | some cur =>
      rw [afterLimit_eq_counter m sw c l hcc] at h ⊢
      by_cases hacc : cur + c ≤ l + sw.getD (softWindowDefault l) ∧
          ¬ Int.fmod (cur + c) (writeThroughStep l) = 0
      · rw [fastCheck_eq_accept m s hacc]
        exact ⟨by simp, rfl, fun _ => rfl⟩
      · rw [fastCheck_eq_reject m s hacc] at h
        exact absurd (hardPath_increment_mem _ _ _ _ _) h.2
  | none =>
      cases hdb0 : s.db with
      | none =>
          rw [afterLimit_eq_seedMissing m sw c l hcc hdb0] at h
          refine absurd ?_ h.2
          rw [mem_prependTrace_trace]
          right
          exact hardPath_increment_mem _ _ _ _ _
      | some row0 =>
          rw [afterLimit_eq_seed m sw c l hcc hdb0] at h ⊢
          by_cases hacc : 0 + c ≤ l + sw.getD (softWindowDefault l) ∧
              ¬ Int.fmod (0 + c) (writeThroughStep l) = 0
          · rw [fastCheck_eq_accept m { s with cacheCounter := some 0 } hacc]
            refine ⟨?_, hdb0, ?_⟩
            · intro op hop
              rw [mem_prependTrace_trace] at hop
              simpa using hop
            · intro hsome
              simp at hsome
          · rw [fastCheck_eq_reject m { s with cacheCounter := some 0 } hacc] at h
            refine absurd ?_ h.2
            rw [mem_prependTrace_trace]
            right
            exact hardPath_increment_mem _ _ _ _ _

end FastPathFrame

/-- Counterexample to C5 as stated: with the project row present, the
counter cached at 0 but the limit key missing, a charge of 1 is accepted on
the fast path (success, no `SQL_INCREMENT`), yet the call did execute a
database statement — the `SQL_FETCH_LIMIT` read that seeded the cached
limit.  The fast path is therefore not database-silent in general. -/
theorem fast_path_no_db_statements_counterexample :
    (consume_monthly_quota true 202504 none 1
      ⟨some ⟨202504, 50, 100, 500⟩, some 0, none⟩).outcome = .ok ∧
    DbOp.increment ∉ (consume_monthly_quota true 202504 none 1
      ⟨some ⟨202504, 50, 100, 500⟩, some 0, none⟩).trace ∧
    (consume_monthly_quota true 202504 none 1
      ⟨some ⟨202504, 50, 100, 500⟩, some 0, none⟩).trace = [DbOp.fetchLimit] := by
  decide

/-- C5 as amended: a call that returns success via the fast path executes
no database write — no `SQL_INCREMENT`, hence also no commit or rollback;
every statement it may have executed is a `SQL_FETCH_LIMIT` read seeding a
missing cache entry, the stored row is untouched, and when both cache
entries were present the call executed no database statement at all. -/
theorem fast_path_no_db_writes (ok : Bool) (m : Nat) (sw : Option Int) (c : Int)
    (s : QState)
    (h : (consume_monthly_quota ok m sw c s).outcome = .ok ∧
         DbOp.increment ∉ (consume_monthly_quota ok m sw c s).trace) :
    (∀ op ∈ (consume_monthly_quota ok m sw c s).trace, op = DbOp.fetchLimit) ∧
    (consume_monthly_quota ok m sw c s).state.db = s.db ∧
    (s.cacheLimit.isSome → s.cacheCounter.isSome →
       (consume_monthly_quota ok m sw c s).trace = []) := by
  by_cases hc0 : c ≤ 0
  · rw [consume_eq_nonpos ok m sw s hc0]
    exact ⟨by simp, rfl, fun _ _ => rfl⟩
  · cases ok with
    | false =>
        cases hdb0 : s.db with
        | none =>
            rw [consume_eq_missNone false m sw hc0 (by simp) hdb0] at h
            simp at h
        | some row0 =>
            rw [consume_eq_missFound false m sw hc0 (by simp) hdb0] at h
            refine absurd ?_ h.2
            rw [mem_prependTrace_trace]
            right
            rw [afterLimit_eq_cacheFail]
            exact hardPath_increment_mem _ _ _ _ _
    | true =>
        cases hl : s.cacheLimit with
        | some l =>
            rw [consume_eq_cachedLimit' m sw hc0 hl] at h ⊢
            obtain ⟨a1, a2, a3⟩ := afterLimit_fastpath_shape m sw c s l h
            exact ⟨a1, a2, fun _ hcs => a3 hcs⟩
        | none =>
            cases hdb0 : s.db with
            | none =>
                rw [consume_eq_missNone true m sw hc0 (by simpa using hl) hdb0] at h
                simp at h
            | some row0 =>
                rw [consume_eq_missFound' m sw hc0 hl hdb0] at h ⊢
                have h' : (afterLimit true m sw c
                    { s with cacheLimit := some row0.monthly_quota_limit }
                    row0.monthly_quota_limit).outcome = .ok ∧
                    DbOp.increment ∉ (afterLimit true m sw c
                      { s with cacheLimit := some row0.monthly_quota_limit }
                      row0.monthly_quota_limit).trace := by
                  refine ⟨by simpa using h.1, fun hmem => h.2 ?_⟩
                  rw [mem_prependTrace_trace]
                  right
                  exact hmem
                obtain ⟨a1, a2, a3⟩ := afterLimit_fastpath_shape m sw c _
                  row0.monthly_quota_limit h'
                refine ⟨?_, a2.trans hdb0, ?_⟩
                · intro op hop
                  rw [mem_prependTrace_trace] at hop
                  rcases hop with hop | hop
                  · simpa using hop
                  · exact a1 op hop
                · intro hls
                  simp at hls

/-- Witness for the amended C5: with both cache keys present the fast-path
success executes no database statement at all. -/
theorem fast_path_no_db_writes_witness :
    ((consume_monthly_quota true 202504 none 1
        ⟨some ⟨202504, 50, 100, 500⟩, some 0, some 100⟩).outcome = .ok ∧
      DbOp.increment ∉ (consume_monthly_quota true 202504 none 1
        ⟨some ⟨202504, 50, 100, 500⟩, some 0, some 100⟩).trace) ∧
    (consume_monthly_quota true 202504 none 1
      ⟨some ⟨202504, 50, 100, 500⟩, some 0, some 100⟩).trace = [] := by
  have hh : (consume_monthly_quota true 202504 none 1
      ⟨some ⟨202504, 50, 100, 500⟩, some 0, some 100⟩).outcome = .ok ∧
      DbOp.increment ∉ (consume_monthly_quota true 202504 none 1
        ⟨some ⟨202504, 50, 100, 500⟩, some 0, some 100⟩).trace := by
    decide
  exact ⟨hh, (fast_path_no_db_writes true 202504 none 1 _ hh).2.2 rfl rfl⟩

/-- C10 (zero-seeded optimistic counter): when the per-month cache counter
is absent, `consume_monthly_quota` fetches the project row only to check
existence, discards its `monthly_quota_used`, seeds the counter at 0, and
so accepts on the fast path any charge that fits `limit + soft window` and
misses the checkpoint — whatever the stored usage (`row` is arbitrary here,
including `monthly_quota_used = monthly_quota_limit`).  The stored row is
untouched and the counter ends at exactly `count`. -/
theorem zero_seeded_optimistic_counter (m : Nat) (c : Int) (s : QState)
    (row : ProjectRow)
    (hdb : s.db = some row) (hcc : s.cacheCounter = none) (hpos : 0 < c)
    (hacc : c ≤ s.cacheLimit.getD row.monthly_quota_limit +
        softWindowDefault (s.cacheLimit.getD row.monthly_quota_limit) ∧
      ¬ Int.fmod c
        (writeThroughStep (s.cacheLimit.getD row.monthly_quota_limit)) = 0) :
    (consume_monthly_quota true m none c s).outcome = .ok ∧
    DbOp.increment ∉ (consume_monthly_quota true m none c s).trace ∧
    (consume_monthly_quota true m none c s).state.db = s.db ∧
    (consume_monthly_quota true m none c s).state.cacheCounter = some c := by
  have hc0 : ¬ c ≤ 0 := not_le.mpr hpos
  cases hl : s.cacheLimit with
  | some l =>
      rw [hl] at hacc
      simp only [Option.getD_some] at hacc
      have hacc' : 0 + c ≤ l + softWindowDefault l ∧
          ¬ Int.fmod (0 + c) (writeThroughStep l) = 0 := by
        simpa [zero_add] using hacc
      rw [consume_eq_cachedLimit' m none hc0 hl,
        afterLimit_eq_seed m none c l hcc hdb]
      simp only [Option.getD_none]
      rw [fastCheck_eq_accept m { s with cacheCounter := some 0 } hacc']
      refine ⟨rfl, by simp, rfl, by simp⟩
  | none =>
      rw [hl] at hacc
      simp only [Option.getD_none] at hacc
      have hacc' : 0 + c ≤ row.monthly_quota_limit +
          softWindowDefault row.monthly_quota_limit ∧
          ¬ Int.fmod (0 + c) (writeThroughStep row.monthly_quota_limit) = 0 := by
        simpa [zero_add] using hacc
      rw [consume_eq_missFound' m none hc0 hl hdb,
        afterLimit_eq_seed m none c row.monthly_quota_limit
          (show ({ s with cacheLimit := some row.monthly_quota_limit } :
            QState).cacheCounter = none from hcc)
          (show ({ s with cacheLimit := some row.monthly_quota_limit} :
            QState).db = some row from hdb)]
      simp only [Option.getD_none]
      rw [fastCheck_eq_accept m
        ({ db := s.db, cacheCounter := some 0,
           cacheLimit := some row.monthly_quota_limit } : QState) hacc']
      refine ⟨rfl, by simp, rfl, by simp⟩

/-- Witness for C10: stored usage already equals the limit (100 of 100),
yet after a counter-cache miss a charge of 1 is accepted on the fast path
and the counter is seeded to 0 and left at 1. -/
theorem zero_seeded_optimistic_counter_witness :
    (0:Int) < 1 ∧
    (consume_monthly_quota true 202504 none 1
      ⟨some ⟨202504, 100, 100, 900⟩, none, some 100⟩).outcome = .ok ∧
    DbOp.increment ∉ (consume_monthly_quota true 202504 none 1
      ⟨some ⟨202504, 100, 100, 900⟩, none, some 100⟩).trace ∧
    (consume_monthly_quota true 202504 none 1
      ⟨some ⟨202504, 100, 100, 900⟩, none, some 100⟩).state.db =
      some ⟨202504, 100, 100, 900⟩ ∧
    (consume_monthly_quota true 202504 none 1
      ⟨some ⟨202504, 100, 100, 900⟩, none, some 100⟩).state.cacheCounter =
      some 1 := by
  refine ⟨by decide, ?_⟩
  exact zero_seeded_optimistic_counter 202504 1
    ⟨some ⟨202504, 100, 100, 900⟩, none, some 100⟩ ⟨202504, 100, 100, 900⟩
    rfl rfl (by decide) (by decide)

section QueueAppender

theorem queue_enqueue_succ {mq : Nat} {buf : List LogEvent} (evt : LogEvent)
    (h : buf.length < mq) :
    AsyncQueueLogAppender.enqueue mq (some buf) evt =
      (some evt.id, some (buf ++ [evt])) := by
  simp only [AsyncQueueLogAppender.enqueue]
  rw [if_neg (by omega)]

theorem queue_enqueue_full {mq : Nat} {buf : List LogEvent} (evt : LogEvent)
    (hmq : 0 < mq) (h : mq ≤ buf.length) :
    AsyncQueueLogAppender.enqueue mq (some buf) evt = (none, some buf) := by
  simp only [AsyncQueueLogAppender.enqueue]
  rw [if_pos ⟨hmq, h⟩]

theorem enqueueMany_saturated (mq : Nat) (hmq : 0 < mq) (buf : List LogEvent)
    (h : mq ≤ buf.length) (evts : List LogEvent) :
    (AsyncQueueLogAppender.enqueueMany mq (some buf) evts).1 =
      evts.map (fun _ => none) := by
  induction evts with
  | nil => rfl
  | cons e es ih =>
      simp only [AsyncQueueLogAppender.enqueueMany, queue_enqueue_full e hmq h,
        List.map_cons]
      rw [ih]

theorem enqueueMany_from (mq : Nat) (hmq : 0 < mq) (buf : List LogEvent)
    (evts : List LogEvent) (h : buf.length ≤ mq) :
    (AsyncQueueLogAppender.enqueueMany mq (some buf) evts).1 =
      (evts.take (mq - buf.length)).map (fun e => some e.id) ++
      (evts.drop (mq - buf.length)).map (fun _ => none) := by
  induction evts generalizing buf with
  | nil => simp [AsyncQueueLogAppender.enqueueMany]
  | cons e es ih =>
      by_cases hfull : mq ≤ buf.length
      · have h0 : mq - buf.length = 0 := by omega
        rw [h0]
        simp only [List.take_zero, List.map_nil, List.nil_append, List.drop_zero]
        exact enqueueMany_saturated mq hmq buf hfull (e :: es)
      · push_neg at hfull
        have hstep : mq - buf.length = (mq - (buf.length + 1)) + 1 := by omega
        simp only [AsyncQueueLogAppender.enqueueMany, queue_enqueue_succ e hfull]
        rw [hstep]
        simp only [List.take_succ_cons, List.drop_succ_cons, List.map_cons,
          List.cons_append]
        have ih' := ih (buf ++ [e]) (by simp only [List.length_append]; simpa using hfull)
        simp only [List.length_append, List.length_singleton] at ih'
        rw [ih']

end QueueAppender

/-- C6 (drop-new, never block): with a started appender and a positive
`max_queue`, `enqueue` appends and returns the event's id whenever the
buffer has room; when the buffer already holds `max_queue` events the event
is discarded, the buffer is unchanged and `None` is returned; a burst of
enqueues into an empty buffer therefore yields ids for the first
`max_queue` events and `None` for exactly the overflow events. -/
theorem queue_enqueue_drop_new (mq : Nat) (hmq : 0 < mq) :
    (∀ (buf : List LogEvent) (evt : LogEvent), buf.length < mq →
       AsyncQueueLogAppender.enqueue mq (some buf) evt =
         (some evt.id, some (buf ++ [evt]))) ∧
    (∀ (buf : List LogEvent) (evt : LogEvent), mq ≤ buf.length →
       AsyncQueueLogAppender.enqueue mq (some buf) evt = (none, some buf)) ∧
    (∀ evts : List LogEvent,
       (AsyncQueueLogAppender.enqueueMany mq (some []) evts).1 =
         (evts.take mq).map (fun e => some e.id) ++
         (evts.drop mq).map (fun _ => none)) := by
  refine ⟨fun buf evt h => queue_enqueue_succ evt h,
    fun buf evt h => queue_enqueue_full evt hmq h, fun evts => ?_⟩
  have h := enqueueMany_from mq hmq [] evts (by simp)
  simpa using h

/-- A fixed sample event used by the appender witnesses. -/
def sampleEvent (n : Nat) : LogEvent :=
  { id := n
    function_name := "GMAIL_SEND_EMAIL"
    app_name := "GMAIL"
    api_key_name := none
    linked_account_owner_id := none
    app_configuration_id := none
    status := .success
    execution_time := 12
    created_at := 0
    project_id := 1 }

/-- Witness for C6: capacity 2, three events — ids back for the first two,
`None` for the third. -/
theorem queue_enqueue_drop_new_witness :
    0 < 2 ∧
    (AsyncQueueLogAppender.enqueueMany 2 (some [])
      [sampleEvent 1, sampleEvent 2, sampleEvent 3]).1 =
      [some 1, some 2, none] := by
  refine ⟨by decide, ?_⟩
  have h := (queue_enqueue_drop_new 2 (by decide)).2.2
    [sampleEvent 1, sampleEvent 2, sampleEvent 3]
  simpa [sampleEvent] using h

section FlushLoop

theorem tick_fst (f : Bool) (mb : Nat) (q : List LogEvent) (db : Database) :
    (AsyncQueueLogAppender.tick f mb q db).1 = q.drop mb := by
  unfold AsyncQueueLogAppender.tick
  cases hf : flush_to_db f db (q.take mb) <;> simp [hf]

/-- A tick whose flush raises: the transaction is rolled back (the tables
are unchanged), the drained events are gone from the queue, and the tick
returns normally — the loop swallows the exception and goes on. -/
theorem tick_fail (mb : Nat) (q : List LogEvent) (db : Database) :
    AsyncQueueLogAppender.tick true mb q db = (q.drop mb, db) := by
  unfold AsyncQueueLogAppender.tick flush_to_db
  by_cases hb : (q.take mb).isEmpty <;> simp [hb]

theorem tick_logs_shape (f : Bool) (mb : Nat) (q : List LogEvent) (db : Database) :
    ∃ chunk, (AsyncQueueLogAppender.tick f mb q db).2.execution_logs =
      db.execution_logs ++ chunk ∧
      List.Sublist chunk (logsRows (q.take mb)) := by
  by_cases hb : (q.take mb).isEmpty
  · refine ⟨[], ?_, List.nil_sublist _⟩
    simp [AsyncQueueLogAppender.tick, flush_to_db, hb]
  · cases f with
    | false =>
        refine ⟨logsRows (q.take mb), ?_, List.Sublist.refl _⟩
        simp [AsyncQueueLogAppender.tick, flush_to_db, hb]
    | true =>
        refine ⟨[], ?_, List.nil_sublist _⟩
        simp [AsyncQueueLogAppender.tick, flush_to_db, hb]

theorem runTicks_logs_shape (mb : Nat) (fails : List Bool) :
    ∀ (q : List LogEvent) (db : Database),
      ∃ sel, (AsyncQueueLogAppender.runTicks mb fails (q, db)).2.execution_logs =
        db.execution_logs ++ sel ∧ List.Sublist sel (logsRows q) := by
  induction fails with
  | nil =>
      intro q db
      exact ⟨[], by simp [AsyncQueueLogAppender.runTicks], List.nil_sublist _⟩
  | cons f fs ih =>
      intro q db
      obtain ⟨chunk, hc, hcs⟩ := tick_logs_shape f mb q db
      obtain ⟨sel, hs, hss⟩ := ih (AsyncQueueLogAppender.tick f mb q db).1
        (AsyncQueueLogAppender.tick f mb q db).2
      have heq : AsyncQueueLogAppender.runTicks mb (f :: fs) (q, db) =
          AsyncQueueLogAppender.runTicks mb fs
            ((AsyncQueueLogAppender.tick f mb q db).1,
             (AsyncQueueLogAppender.tick f mb q db).2) := rfl
      refine ⟨chunk ++ sel, ?_, ?_⟩
      · rw [heq, hs, hc, List.append_assoc]
      · have hq : logsRows q = logsRows (q.take mb) ++ logsRows (q.drop mb) := by
          unfold logsRows
          rw [← List.map_append, List.take_append_drop]
        rw [hq]
        rw [tick_fst] at hss
        exact List.Sublist.append hcs hss

end FlushLoop

/-- C7 (at-most-once flush, batch loss on error): a tick whose flush raises
leaves the tables unchanged (rollback), removes the drained batch from the
queue and returns normally, so the batch is lost and never re-flushed; over
any run of ticks with any pattern of flush failures the rows reaching
`execution_logs` are a subsequence of the enqueued events, and with
distinct event ids no event is ever inserted twice. -/
theorem flush_loop_at_most_once (mb : Nat) (fails : List Bool)
    (q : List LogEvent) (hq : (q.map LogEvent.id).Nodup) :
    (∀ (q' : List LogEvent) (db' : Database),
       AsyncQueueLogAppender.tick true mb q' db' = (q'.drop mb, db')) ∧
    List.Sublist
      (AsyncQueueLogAppender.runTicks mb fails (q, Database.empty)).2.execution_logs
      (logsRows q) ∧
    ((AsyncQueueLogAppender.runTicks mb fails
        (q, Database.empty)).2.execution_logs.map ExecutionLogRow.id).Nodup := by
  obtain ⟨sel, hs, hss⟩ := runTicks_logs_shape mb fails q Database.empty
  have hlogs : (AsyncQueueLogAppender.runTicks mb fails
      (q, Database.empty)).2.execution_logs = sel := by
    simpa [Database.empty] using hs
  refine ⟨fun q' db' => tick_fail mb q' db', ?_, ?_⟩
  · rw [hlogs]
    exact hss
  · rw [hlogs]
    have hmap := hss.map ExecutionLogRow.id
    have hids : (logsRows q).map ExecutionLogRow.id = q.map LogEvent.id := by
      unfold logsRows
      rw [List.map_map]
      rfl
    rw [hids] at hmap
    exact List.Nodup.sublist hmap hq

/-- Witness for C7: two events, first tick's flush fails (batch lost),
second tick flushes the empty queue; the surviving log rows have distinct
ids. -/
theorem flush_loop_at_most_once_witness :
    (([sampleEvent 1, sampleEvent 2].map LogEvent.id).Nodup) ∧
    ((AsyncQueueLogAppender.runTicks 5 [true, false]
        ([sampleEvent 1, sampleEvent 2], Database.empty)).2.execution_logs.map
        ExecutionLogRow.id).Nodup := by
  refine ⟨by decide, ?_⟩
  exact (flush_loop_at_most_once 5 [true, false] [sampleEvent 1, sampleEvent 2]
    (by decide)).2.2

/-- C8 (drop-oldest on the Redis appender): a successful `enqueue` pushes
the event onto the head of the list and returns its id; when the length
after the push exceeds `max_queue`, exactly one item — the list's tail,
i.e. the oldest buffered item — is popped and discarded, leaving the new
event in place at the head. -/
theorem redis_enqueue_drop_oldest (mq : Nat) (l : List LogEvent) (evt : LogEvent) :
    (AsyncRedisLogAppender.enqueue mq l evt).1 = some evt.id ∧
    (l.length + 1 ≤ mq → (AsyncRedisLogAppender.enqueue mq l evt).2 = evt :: l) ∧
    (mq < l.length + 1 →
       (AsyncRedisLogAppender.enqueue mq l evt).2 = (evt :: l).dropLast ∧
       (AsyncRedisLogAppender.enqueue mq l evt).2.length = l.length ∧
       (l ≠ [] →
         (AsyncRedisLogAppender.enqueue mq l evt).2 = evt :: l.dropLast)) := by
  refine ⟨rfl, fun h => ?_, fun h => ?_⟩
  · simp only [AsyncRedisLogAppender.enqueue]
    rw [if_neg (by simp only [List.length_cons]; omega)]
  · have hc : mq < (evt :: l).length := by
      simp only [List.length_cons]
      omega
    simp only [AsyncRedisLogAppender.enqueue]
    rw [if_pos hc]
    refine ⟨rfl, by simp, fun hne => ?_⟩
    exact List.dropLast_cons_of_ne_nil hne

/-- Witness for C8: capacity 2 with two buffered events; pushing a third
returns its id, keeps it at the head and discards the tail (the oldest). -/
theorem redis_enqueue_drop_oldest_witness :
    (AsyncRedisLogAppender.enqueue 2 [sampleEvent 1, sampleEvent 2]
      (sampleEvent 3)).1 = some 3 ∧
    (AsyncRedisLogAppender.enqueue 2 [sampleEvent 1, sampleEvent 2]
      (sampleEvent 3)).2 = [sampleEvent 3, sampleEvent 1] := by
  have h := redis_enqueue_drop_oldest 2 [sampleEvent 1, sampleEvent 2]
    (sampleEvent 3)
  refine ⟨by simpa [sampleEvent] using h.1, ?_⟩
  have h2 := (h.2.2 (by decide)).2.2 (by decide)
  simpa using h2

section DetailPairing

theorem countP_by_id (batch : List LogEvent) (ev : LogEvent) (p : LogEvent → Bool)
    (hids : (batch.map LogEvent.id).Nodup) (hev : ev ∈ batch) :
    batch.countP (fun e => e.id == ev.id && p e) = if p ev then 1 else 0 := by
  induction batch with
  | nil => cases hev
  | cons b bs ih =>
      rw [List.map_cons, List.nodup_cons] at hids
      obtain ⟨hbid, hrest⟩ := hids
      rcases List.mem_cons.mp hev with hev1 | hev2
      · subst hev1
        rw [List.countP_cons]
        have hz : bs.countP (fun e => e.id == ev.id && p e) = 0 := by
          rw [List.countP_eq_zero]
          intro e he
          have hne : e.id ≠ ev.id := by
            intro hcontra
            exact hbid (by rw [← hcontra]; exact List.mem_map_of_mem LogEvent.id he)
          simp [hne]
        rw [hz]
        simp
      · rw [List.countP_cons]
        have hbne : (b.id == ev.id && p b) = false := by
          have hne : b.id ≠ ev.id := by
            intro hcontra
            exact hbid (by rw [hcontra]; exact List.mem_map_of_mem LogEvent.id hev2)
          simp [hne]
        rw [hbne, ih hrest hev2]
        simp

end DetailPairing

/-- C9 (detail pairing): in a flushed batch with distinct event ids, every
event yields exactly one `execution_logs` row carrying its id; an event
with a non-null `request` or `response` yields exactly one
`execution_details` row sharing its id (and carrying its payloads), and an
event with both null yields none. -/
theorem flush_detail_pairing (batch : List LogEvent) (ev : LogEvent)
    (hids : (batch.map LogEvent.id).Nodup) (hev : ev ∈ batch) :
    (logsRows batch).length = batch.length ∧
    (logsRows batch).countP (fun r => r.id == ev.id) = 1 ∧
    (detailsRows batch).countP (fun d => d.id == ev.id) =
      (if hasPayload ev then 1 else 0) ∧
    (hasPayload ev →
       (⟨ev.id, ev.request, ev.response⟩ : ExecutionDetailRow) ∈
         detailsRows batch) := by
  refine ⟨by simp [logsRows], ?_, ?_, fun hp => ?_⟩
  · unfold logsRows
    rw [List.countP_map]
    have h := countP_by_id batch ev (fun _ => true) hids hev
    simpa [Function.comp, toLogRow] using h
  · unfold detailsRows
    rw [List.countP_map, List.countP_filter]
    have h := countP_by_id batch ev hasPayload hids hev
    simpa [Function.comp] using h
  · unfold detailsRows
    exact List.mem_map_of_mem _ (List.mem_filter.mpr ⟨hev, hp⟩)

/-- Witness for C9: a two-event batch where only the first event carries a
payload — one detail row, with the event's id and payloads. -/
theorem flush_detail_pairing_witness :
    (detailsRows [{ sampleEvent 1 with request := some "x" }, sampleEvent 2]).countP
      (fun d => d.id == ({ sampleEvent 1 with request := some "x" } :
        LogEvent).id) = 1 ∧
    (detailsRows [{ sampleEvent 1 with request := some "x" },
      sampleEvent 2]).countP
      (fun d => d.id == (sampleEvent 2).id) = 0 ∧
    (⟨1, some "x", none⟩ : ExecutionDetailRow) ∈
      detailsRows [{ sampleEvent 1 with request := some "x" }, sampleEvent 2] := by
  have h1 := flush_detail_pairing
    [{ sampleEvent 1 with request := some "x" }, sampleEvent 2]
    { sampleEvent 1 with request := some "x" } (by decide)
    (List.mem_cons_self _ _)
  have h2 := flush_detail_pairing
    [{ sampleEvent 1 with request := some "x" }, sampleEvent 2]
    (sampleEvent 2) (by decide) (by simp)
  refine ⟨?_, ?_, ?_⟩
  · have := h1.2.2.1
    simpa [hasPayload, sampleEvent] using this
  · have := h2.2.2.1
    simpa [hasPayload, sampleEvent] using this
  · have := h1.2.2.2 (by decide)
    simpa [sampleEvent] using this
